/-
Verification development for the SharePoint source connector
(unstructured_ingest/v2/processes/connectors/sharepoint.py).

The connector's pure logic is shallowly embedded here:
  * Python strings are `List Char` (`Chars`); `"lit".data` injects literals.
  * Python dicts (ordered, unique keys) are association lists with
    first-match lookup and in-place update.
  * Raw SharePoint property values are `PropValue`; Python truthiness and
    `json.dumps`-serializability are explicit predicates.
  * Fallible code returns `Except PyError _`; the `IndexError` raised by an
    unguarded `s[0]` is `PyError.indexError`.
  * Network/SDK calls (office365 client, msal, graph) are inputs: the folder
    tree, the site pages and the drive items are passed in as data, and the
    helpers `parse_datetime`/`time`/`urllib.parse.quote` (which live outside
    this module) are opaque function parameters.
-/
import Mathlib

abbrev Chars := List Char

/-- A raw SharePoint property value as seen by the Python code: either a
plain JSON-compatible value or an SDK object handle (which `json.dumps`
rejects with `TypeError`). -/
inductive PropValue where
  | str (s : Chars)
  | num (n : Int)
  | bool (b : Bool)
  | null
  | handle (tag : Chars)
deriving DecidableEq

/-- Python truthiness of a property value (`if v:`). -/
def PropValue.truthy : PropValue → Bool
  | .str s => !s.isEmpty
  | .num n => n != 0
  | .bool b => b
  | .null => false
  | .handle _ => true

/-- Whether `json.dumps(v)` succeeds: everything except SDK object handles. -/
def PropValue.jsonSerializable : PropValue → Bool
  | .handle _ => false
  | _ => true

/-- Python truthiness of an optional string (`None` and `""` are falsy). -/
def optTruthy : Option Chars → Bool
  | some s => !s.isEmpty
  | none => false

/-- `d.get(k)` on an ordered dict modelled as an association list. -/
def dictGet {α : Type} (d : List (Chars × α)) (k : Chars) : Option α :=
  (d.find? fun kv => kv.1 == k).map fun kv => kv.2

/-- `d[k] = v` on an ordered dict: replace the first binding of `k` in
place, or append a new binding at the end. -/
def dictSet {α : Type} (k : Chars) (v : α) : List (Chars × α) → List (Chars × α)
  | [] => [(k, v)]
  | kv :: rest => if kv.1 == k then (k, v) :: rest else kv :: dictSet k v rest

/-- Number of bindings of key `k` in an association list. -/
def countKey {α : Type} (d : List (Chars × α)) (k : Chars) : Nat :=
  (d.filter fun kv => kv.1 == k).length

/-- `SharepointIndexer.get_properties`: drop falsy values (the
`{k: v for k, v in raw_properties.items() if v}` comprehension), then keep
only values that `json.dumps` accepts, silently skipping the rest. -/
def get_properties (raw : List (Chars × PropValue)) : List (Chars × PropValue) :=
  (raw.filter fun kv => kv.2.truthy).filter fun kv => kv.2.jsonSerializable

/-- Fuelled worker for Python `str.replace(pat, "")`: remove the leftmost
occurrence of `pat` and continue after it, scanning left to right.  The
fuel only bounds the recursion; `removeAll` supplies enough for it never to
run out. -/
def removeAllF (pat : Chars) : Nat → Chars → Chars
  | _, [] => []
  | 0, s => s
  | fuel + 1, c :: rest =>
    if !pat.isEmpty && pat.isPrefixOf (c :: rest) then
      removeAllF pat fuel ((c :: rest).drop pat.length)
    else
      c :: removeAllF pat fuel rest

/-- Python `s.replace(pat, "")`: every non-overlapping occurrence of `pat`
is removed, left to right. -/
def removeAll (pat s : Chars) : Chars := removeAllF pat s.length s

/-- The `while rel_path[0] == "/": rel_path = rel_path[1:]` loop of
`file_to_file_data`: each iteration indexes `rel_path[0]` with no emptiness
guard, so the loop raises `IndexError` (modelled as `none`) exactly when
the string runs out of characters, i.e. when it consists only of `/`. -/
def stripSlashes : Chars → Option Chars
  | [] => none
  | c :: rest => if c = '/' then stripSlashes rest else some (c :: rest)

/-- Python `pat in s` substring test. -/
def containsSub (pat : Chars) : Chars → Bool
  | [] => pat.isPrefixOf []
  | c :: rest => pat.isPrefixOf (c :: rest) || containsSub pat rest

/-- Split a path string on `/` (used to phrase "segment" in claims). -/
def splitSegs : Chars → List Chars
  | [] => [[]]
  | c :: rest =>
    let r := splitSegs rest
    if c = '/' then [] :: r
    else (c :: r.headD []) :: r.tail

/-- The `SharepointContentType` enum of the connector. -/
inductive SharepointContentType where
  | document
  | sitepage
  | list
deriving DecidableEq

/-- The `.value` of each `SharepointContentType` member. -/
def SharepointContentType.value : SharepointContentType → Chars
  | .document => ("document").data
  | .sitepage => ("site_page").data
  | .list => ("list").data

/-- The metadata key `"sharepoint_content_type"` under which the content
type tag is stored. -/
def contentTypeKey : Chars := ("sharepoint_content_type").data

/-- A SharePoint `File` object as the indexer reads it: the attributes
`file_to_file_data` consults, with `expand(...).get().execute_query()`
already performed (the embedding receives fully-fetched objects). -/
structure SPFile where
  name : Chars
  serverRelativeUrl : Chars
  unique_id : Chars
  time_created : Chars
  time_last_modified : Chars
  major_version : Nat
  minor_version : Nat
  properties : List (Chars × PropValue)
deriving DecidableEq

/-- A SharePoint `SitePage` object as `page_to_file_data` reads it. -/
structure SitePage where
  properties : List (Chars × PropValue)
  first_published : Chars
  file_name : Chars
deriving DecidableEq

/-- A graph `Permission` object; the `.to_json()` sub-objects that
`map_permission` passes through unchanged are modelled as already
serialized opaque strings. -/
structure Permission where
  id : Chars
  roles : List Chars
  share_id : Chars
  has_password : Bool
  link : Chars
  granted_to_identities : Chars
  granted_to : Chars
  granted_to_v2 : Chars
  granted_to_identities_v2 : Chars
  invitation : Chars
deriving DecidableEq

/-- The dict built by `SharepointIndexer.map_permission`. -/
structure PermissionRecord where
  id : Chars
  roles : List Chars
  share_id : Chars
  has_password : Bool
  link : Chars
  granted_to_identities : Chars
  granted_to : Chars
  granted_to_v2 : Chars
  granted_to_identities_v2 : Chars
  invitation : Chars
deriving DecidableEq

/-- Model of `SharepointIndexer.map_permission`: field-for-field mapping of
a graph permission into the attached record. -/
def map_permission (p : Permission) : PermissionRecord :=
  { id := p.id
    roles := p.roles
    share_id := p.share_id
    has_password := p.has_password
    link := p.link
    granted_to_identities := p.granted_to_identities
    granted_to := p.granted_to
    granted_to_v2 := p.granted_to_v2
    granted_to_identities_v2 := p.granted_to_identities_v2
    invitation := p.invitation }

/-- A graph `DriveItem` with its etag and its (already fetched) permission
list. -/
structure DriveItem where
  etag : Chars
  dname : Chars
  permissions : List Permission
deriving DecidableEq

/-- The host pipeline's `SourceIdentifiers` record. -/
structure SourceIdentifiers where
  filename : Chars
  fullpath : Chars
  rel_path : Chars
deriving DecidableEq

/-- The host pipeline's `FileDataSourceMetadata` record (the fields this
connector populates). -/
structure FileDataSourceMetadata where
  url : Option Chars
  version : Option Chars
  date_modified : Option Chars
  date_created : Option Chars
  date_processed : Option Chars
  record_locator : List (Chars × Chars)
  permissions_data : Option (List PermissionRecord)
deriving DecidableEq

/-- The host pipeline's `FileData` record. -/
structure FileData where
  identifier : Option Chars
  connector_type : Chars
  source_identifiers : SourceIdentifiers
  metadata : FileDataSourceMetadata
  additional_metadata : List (Chars × PropValue)
deriving DecidableEq

mutual
/-- A SharePoint `Folder` handle with its (already fetched) `Files` and
`Folders` expansions. -/
inductive Folder where
  | mk (serverRelativeUrl : Chars) (fname : Chars) (files : List SPFile) (folders : FolderList)
/-- The child folders of a `Folder` (a list, given as a mutual inductive so
that the traversal below is structurally recursive). -/
inductive FolderList where
  | nil
  | cons (head : Folder) (tail : FolderList)
end

/-- The `serverRelativeUrl` attribute of a folder. -/
def Folder.url : Folder → Chars
  | .mk u _ _ _ => u

/-- The `name` attribute of a folder. -/
def Folder.fname : Folder → Chars
  | .mk _ n _ _ => n

/-- The `files` attribute of a folder. -/
def Folder.files : Folder → List SPFile
  | .mk _ _ fs _ => fs

/-- The `folders` attribute of a folder. -/
def Folder.folders : Folder → FolderList
  | .mk _ _ _ c => c

/-- View a `FolderList` as an ordinary list. -/
def FolderList.toList : FolderList → List Folder
  | .nil => []
  | .cons f fs => f :: fs.toList

mutual
/-- Model of `SharepointIndexer.list_files`: non-recursive calls return the
folder's own files; recursive calls append, after the folder's own files,
the recursive listing of each child folder, skipping any child whose
`serverRelativeUrl` contains the substring `"/Forms"`. -/
def list_files (folder : Folder) (recursive : Bool) : List SPFile :=
  match folder with
  | .mk _ _ files folders =>
    if recursive then files ++ list_files_rec folders else files
/-- The `for f in folders: if "/Forms" in f.serverRelativeUrl: continue`
loop of `list_files`. -/
def list_files_rec : FolderList → List SPFile
  | .nil => []
  | .cons f fs =>
    (if containsSub (("/Forms").data) f.url then [] else list_files f true) ++ list_files_rec fs
end

/-- Well-formed folder tree: every file's `serverRelativeUrl` is its
containing folder's url plus `/` plus the file name, recursively. -/
inductive WFFolder : Folder → Prop where
  | mk : ∀ (u n : Chars) (files : List SPFile) (folders : FolderList),
      (∀ fi ∈ files, fi.serverRelativeUrl = u ++ '/' :: fi.name) →
      (∀ f ∈ folders.toList, WFFolder f) →
      WFFolder (Folder.mk u n files folders)

/-- The `SharepointIndexerConfig` pydantic model. -/
structure SharepointIndexerConfig where
  path : Option Chars
  recursive : Bool
  omit_files : Bool
  omit_pages : Bool
  omit_lists : Bool
deriving DecidableEq

/-- The `SharepointPermissionsConfig` pydantic model (secret values are
plain strings here). -/
structure SharepointPermissionsConfig where
  permissions_application_id : Option Chars
  permissions_tenant : Option Chars
  permissions_client_cred : Option Chars
deriving DecidableEq

/-- The `SharepointConnectionConfig` pydantic model. -/
structure SharepointConnectionConfig where
  client_id : Chars
  site : Chars
  client_cred : Chars
  permissions_config : Option SharepointPermissionsConfig
deriving DecidableEq

/-- The site client, reduced to the data the indexer pulls through it: its
base url, folder resolution by server-relative path (a lazy handle in the
SDK, so resolution itself cannot fail), the default document library's
root folder, and the site pages. -/
structure SPClient where
  base_url : Chars
  serverFolders : Chars → Folder
  defaultLibraryRoot : Folder
  pages : List SitePage

/-- Model of `SharepointIndexer.get_root`: `if path := self.index_config.path:`
takes the truthy branch exactly when the configured path is present and
non-empty; otherwise the default document library root folder is used and
its name is written back into the config's `path`. -/
def get_root (cfg : SharepointIndexerConfig) (client : SPClient) :
    Folder × SharepointIndexerConfig :=
  match cfg.path with
  | some p =>
    if !p.isEmpty then (client.serverFolders p, cfg)
    else
      (client.defaultLibraryRoot,
        { cfg with path := some client.defaultLibraryRoot.fname })
  | none =>
    (client.defaultLibraryRoot,
      { cfg with path := some client.defaultLibraryRoot.fname })

/-- Errors the indexer can raise; `indexError` is the uncaught
`IndexError` of an unguarded `s[0]`, and `attributeError` the
`AttributeError` of calling `.get_secret_value()` on a `None`
`permissions_client_cred`. -/
inductive PyError where
  | indexError
  | attributeError
deriving DecidableEq

/-- Model of the `SharepointIndexer.process_permissions` property,
evaluated left to right as the Python `and` chain is: no permissions
config or a falsy tenant short-circuits to false; with a truthy tenant the
code calls `permissions_client_cred.get_secret_value()` unconditionally,
so a `None` credential raises `AttributeError`; otherwise the property is
truthy when both the credential and the application id are. -/
def process_permissions (cc : SharepointConnectionConfig) : Except PyError Bool :=
  match cc.permissions_config with
  | none => Except.ok false
  | some pc =>
    if !optTruthy pc.permissions_tenant then Except.ok false
    else
      match pc.permissions_client_cred with
      | none => Except.error PyError.attributeError
      | some cred =>
        if cred.isEmpty then Except.ok false
        else Except.ok (optTruthy pc.permissions_application_id)

/-- Lookup of a string-valued property with a default, as
`get_property(k, dflt)` / `properties.get(k)` return it.  The properties
consulted this way (Version, UniqueId, Modified, AbsoluteUrl, Url) are
strings on the wire; a missing key yields the default. -/
def getStrD (props : List (Chars × PropValue)) (k : Chars) (dflt : Chars) : Chars :=
  match dictGet props k with
  | some (PropValue.str s) => s
  | _ => dflt

/-- Optional lookup of a string-valued property (`properties.get(k, None)`). -/
def getStrOpt (props : List (Chars × PropValue)) (k : Chars) : Option Chars :=
  match dictGet props k with
  | some (PropValue.str s) => some s
  | _ => none

/-- Apply `f` when the optional string is truthy, as in
`parse_datetime(x) if x else None`. -/
def mapTruthy (f : Chars → Chars) : Option Chars → Option Chars
  | some s => if !s.isEmpty then some (f s) else none
  | none => none

/-- Decimal rendering of a version number component. -/
def natToChars (n : Nat) : Chars := (Nat.repr n).data

/-- Model of `SharepointIndexer.page_to_file_data`.  `pdt` stands for the
out-of-module `str(parse_datetime(x).timestamp())` composition and `now`
for `str(time())`; `path` is the value of `index_config.path`.  Reading
`file_path[0]` on an empty `Url` raises `IndexError`.  The page's
`rel_path` is `file_path.replace(path, "")`, with no separator stripping. -/
def page_to_file_data (pdt : Chars → Chars) (now : Chars) (path : Chars)
    (page : SitePage) : Except PyError FileData :=
  let version := getStrOpt page.properties (("Version").data)
  let unique_id := getStrOpt page.properties (("UniqueId").data)
  let modified := getStrOpt page.properties (("Modified").data)
  let url := getStrOpt page.properties (("AbsoluteUrl").data)
  let date_modified := mapTruthy pdt modified
  let date_created :=
    if !page.first_published.isEmpty &&
        page.first_published != ("0001-01-01T08:00:00Z").data then
      some (pdt page.first_published)
    else none
  match getStrD page.properties (("Url").data) [] with
  | [] => Except.error PyError.indexError
  | c :: rest =>
    let file_path := c :: rest
    let server_path := if c != '/' then file_path else rest
    let additional_metadata :=
      dictSet contentTypeKey (PropValue.str SharepointContentType.sitepage.value)
        (get_properties page.properties)
    Except.ok
      { identifier := unique_id
        connector_type := ("sharepoint").data
        source_identifiers :=
          { filename := page.file_name
            fullpath := file_path
            rel_path := removeAll path file_path }
        metadata :=
          { url := url
            version := version
            date_modified := date_modified
            date_created := date_created
            date_processed := some now
            record_locator := [((("server_path").data), server_path)]
            permissions_data := none }
        additional_metadata := additional_metadata }

/-- Model of `SharepointIndexer.file_to_file_data`.  `quoteUrl` stands for
`urllib.parse.quote`; `path` is the value of `index_config.path`.  The
record's `rel_path` is `fullpath.replace(path, "")` followed by the
unguarded leading-`/` stripping loop, which raises `IndexError` when the
replaced string consists only of slashes. -/
def file_to_file_data (pdt : Chars → Chars) (now : Chars) (quoteUrl : Chars → Chars)
    (base_url path : Chars) (file : SPFile) : Except PyError FileData :=
  let absolute_url := base_url ++ quoteUrl file.serverRelativeUrl
  let date_modified :=
    if !file.time_last_modified.isEmpty then some (pdt file.time_last_modified) else none
  let date_created :=
    if !file.time_created.isEmpty then some (pdt file.time_created) else none
  let additional_metadata :=
    dictSet contentTypeKey (PropValue.str SharepointContentType.document.value)
      (get_properties file.properties)
  let fullpath := file.serverRelativeUrl
  match stripSlashes (removeAll path fullpath) with
  | none => Except.error PyError.indexError
  | some rel =>
    Except.ok
      { identifier := some file.unique_id
        connector_type := ("sharepoint").data
        source_identifiers :=
          { filename := file.name
            fullpath := fullpath
            rel_path := rel }
        metadata :=
          { url := some absolute_url
            version :=
              some (natToChars file.major_version ++ '.' :: natToChars file.minor_version)
            date_modified := date_modified
            date_created := date_created
            date_processed := some now
            record_locator :=
              [((("server_path").data), file.serverRelativeUrl),
               ((("site_url").data), base_url)]
            permissions_data := none }
        additional_metadata := additional_metadata }

/-- One iteration of the `enrich_permissions_on_files` loop: skip a record
with a falsy ETag; against the fetched drive items, zero matches leave the
record alone, more than one match only logs a warning and leaves the
record alone, and exactly one match attaches that item's mapped
permissions. -/
def enrich_one (items : List DriveItem) (fd : FileData) : FileData :=
  match dictGet fd.additional_metadata (("ETag").data) with
  | none => fd
  | some v =>
    if !v.truthy then fd
    else
      match v with
      | PropValue.str e =>
        match items.filter fun x => x.etag == e with
        | [] => fd
        | [m] =>
          { fd with metadata := { fd.metadata with
              permissions_data := some (m.permissions.map map_permission) } }
        | _ :: _ :: _ => fd
      | _ => fd

/-- Model of `SharepointIndexer.enrich_permissions_on_files` over a fixed
set of drive items (the graph client, site lookup and per-run fetch of
`get_permissions_items` are summarized by the `items` argument; when the
graph client is absent Python returns early, which coincides with every
record being left unmodified).  The Python loop mutates each record of the
batch in order, i.e. maps `enrich_one` over it. -/
def enrich_permissions_on_files (items : List DriveItem) (fds : List FileData) :
    List FileData :=
  fds.map (enrich_one items)

/-- The usable content fingerprint of a file record: its `ETag` metadata
entry when that entry is a truthy string (`if not etag: continue` treats a
missing or empty ETag alike). -/
def fingerprint (fd : FileData) : Option Chars :=
  match dictGet fd.additional_metadata (("ETag").data) with
  | some (PropValue.str e) => if e.isEmpty then none else some e
  | _ => none

/-- The `file_data.metadata.record_locator["site_url"] = client.base_url`
assignment performed on every page record in `SharepointIndexer.run`. -/
def attach_site_url (base_url : Chars) (fd : FileData) : FileData :=
  { fd with metadata := { fd.metadata with
      record_locator := dictSet (("site_url").data) base_url fd.metadata.record_locator } }

/-- Model of `SharepointIndexer.run`: resolve the root (possibly writing
the default library name into the config), then, unless files are omitted,
list and convert all files, evaluate the `process_permissions` property
(which can raise `AttributeError`) and, when it is truthy, enrich the
fully materialized batch; finally, unless pages are omitted, convert all
site pages with the site url attached.  The generator yields exactly the
returned list in order; a conversion or property error aborts the run
before anything is yielded. -/
def indexer_run (cfg0 : SharepointIndexerConfig) (cc : SharepointConnectionConfig)
    (client : SPClient) (driveItems : List DriveItem)
    (pdt : Chars → Chars) (now : Chars) (quoteUrl : Chars → Chars) :
    Except PyError (List FileData) := do
  let rc := get_root cfg0 client
  let cfg := rc.2
  let path := cfg.path.getD []
  let filePart ←
    if cfg.omit_files then pure []
    else do
      let files := list_files rc.1 cfg.recursive
      let fds ← files.mapM (file_to_file_data pdt now quoteUrl client.base_url path)
      let pp ← process_permissions cc
      pure (if pp then enrich_permissions_on_files driveItems fds else fds)
  let pagePart ←
    if cfg.omit_pages then pure []
    else do
      let pds ← client.pages.mapM (page_to_file_data pdt now path)
      pure (pds.map (attach_site_url client.base_url))
  pure (filePart ++ pagePart)

/-- JSON whitespace as in Python's `json` module (`[ \t\n\r]`). -/
def isJsonWs (c : Char) : Bool := c = ' ' || c = '\t' || c = '\n' || c = '\r'

/-- Drop leading JSON whitespace. -/
def skipWs : Chars → Chars
  | [] => []
  | c :: r => if isJsonWs c then skipWs r else c :: r

/-- Hexadecimal digit test for `\u` escapes. -/
def isHexDigitCh (c : Char) : Bool :=
  c.isDigit || ('a' ≤ c && c ≤ 'f') || ('A' ≤ c && c ≤ 'F')

/-- Scan a JSON string body (after the opening quote) as `json.loads` with
`strict=True` does: plain characters above `0x1f`, the short escapes, and
`\u` plus four hex digits; returns the rest of the input after the closing
quote, or `none` on a malformed or unterminated string. -/
def jsonStringRest : Chars → Option Chars
  | [] => none
  | c :: r =>
    if c = '"' then some r
    else if c = '\\' then
      match r with
      | [] => none
      | e :: r2 =>
        if e = 'u' then
          match r2 with
          | h1 :: h2 :: h3 :: h4 :: r3 =>
            if isHexDigitCh h1 && isHexDigitCh h2 && isHexDigitCh h3 && isHexDigitCh h4 then
              jsonStringRest r3
            else none
          | _ => none
        else if e = '"' || e = '\\' || e = '/' || e = 'b' || e = 'f' || e = 'n' ||
            e = 'r' || e = 't' then
          jsonStringRest r2
        else none
    else if c.toNat < 32 then none
    else jsonStringRest r

/-- Drop a (possibly empty) run of decimal digits. -/
def takeDigits : Chars → Chars
  | [] => []
  | c :: r => if c.isDigit then takeDigits r else c :: r

/-- Integer part of the JSON number grammar: `0` alone or a nonzero digit
followed by digits (leading zeros rejected, as by the `json` regex). -/
def jsonIntRest : Chars → Option Chars
  | [] => none
  | c :: r =>
    if c = '0' then some r
    else if c.isDigit then some (takeDigits r)
    else none

/-- Optional fraction part `.digits`; consumed only when complete. -/
def jsonFracRest (s : Chars) : Chars :=
  match s with
  | '.' :: c :: r => if c.isDigit then takeDigits r else '.' :: c :: r
  | s => s

/-- Optional exponent part `[eE][+-]?digits`; consumed only when
complete. -/
def jsonExpRest (s : Chars) : Chars :=
  match s with
  | [] => []
  | e :: rest =>
    if e = 'e' || e = 'E' then
      match rest with
      | [] => e :: rest
      | c :: r2 =>
        if c = '+' || c = '-' then
          match r2 with
          | [] => e :: rest
          | d :: r3 => if d.isDigit then takeDigits r3 else e :: rest
        else if c.isDigit then takeDigits r2
        else e :: rest
    else e :: rest

/-- Scan a JSON number (the `NUMBER_RE` regex of `json.scanner`):
`-?(0|[1-9]\d*)(\.\d+)?([eE][+-]?\d+)?`, maximal munch. -/
def jsonNumberRest (s : Chars) : Option Chars :=
  let core :=
    match s with
    | '-' :: r => jsonIntRest r
    | r => jsonIntRest r
  match core with
  | none => none
  | some r1 => some (jsonExpRest (jsonFracRest r1))

mutual
/-- Scan one JSON value as `json.scanner.py_make_scanner` dispatches:
string, object, array, the `null`/`true`/`false` literals, a number, or
the Python extensions `NaN`/`Infinity`/`-Infinity`.  The fuel only bounds
recursion depth; `jsonWellformed` supplies enough for it never to run
out (each recursive call consumes at least one input character). -/
def jsonValueF : Nat → Chars → Option Chars
  | 0, _ => none
  | fuel + 1, s =>
    match s with
    | [] => none
    | c :: r =>
      if c = '\x7b' then jsonObjectF fuel (skipWs r)
      else if c = '[' then jsonArrayF fuel (skipWs r)
      else if c = '"' then jsonStringRest r
      else if ("null").data.isPrefixOf (c :: r) then some ((c :: r).drop 4)
      else if ("true").data.isPrefixOf (c :: r) then some ((c :: r).drop 4)
      else if ("false").data.isPrefixOf (c :: r) then some ((c :: r).drop 5)
      else
        match jsonNumberRest (c :: r) with
        | some r2 => some r2
        | none =>
          if ("NaN").data.isPrefixOf (c :: r) then some ((c :: r).drop 3)
          else if ("Infinity").data.isPrefixOf (c :: r) then some ((c :: r).drop 8)
          else if ("-Infinity").data.isPrefixOf (c :: r) then some ((c :: r).drop 9)
          else none
/-- Scan an object body after `\x7b` and whitespace: `\x7d`, or
`"key" : value` followed by the member tail. -/
def jsonObjectF : Nat → Chars → Option Chars
  | 0, _ => none
  | fuel + 1, s =>
    match s with
    | '\x7d' :: r => some r
    | '"' :: r =>
      match jsonStringRest r with
      | none => none
      | some r1 =>
        match skipWs r1 with
        | ':' :: r2 =>
          match jsonValueF fuel (skipWs r2) with
          | none => none
          | some r3 => jsonObjectTailF fuel (skipWs r3)
        | _ => none
    | _ => none
/-- Remaining members of an object: `\x7d` or `, "key" : value` repeated. -/
def jsonObjectTailF : Nat → Chars → Option Chars
  | 0, _ => none
  | fuel + 1, s =>
    match s with
    | '\x7d' :: r => some r
    | ',' :: r =>
      match skipWs r with
      | '"' :: r1 =>
        match jsonStringRest r1 with
        | none => none
        | some r2 =>
          match skipWs r2 with
          | ':' :: r3 =>
            match jsonValueF fuel (skipWs r3) with
            | none => none
            | some r4 => jsonObjectTailF fuel (skipWs r4)
          | _ => none
      | _ => none
    | _ => none
/-- Scan an array body after `[` and whitespace: `]` or a first element
followed by the element tail. -/
def jsonArrayF : Nat → Chars → Option Chars
  | 0, _ => none
  | fuel + 1, s =>
    match s with
    | ']' :: r => some r
    | _ =>
      match jsonValueF fuel s with
      | none => none
      | some r1 => jsonArrayTailF fuel (skipWs r1)
/-- Remaining elements of an array: `]` or `, value` repeated. -/
def jsonArrayTailF : Nat → Chars → Option Chars
  | 0, _ => none
  | fuel + 1, s =>
    match s with
    | ']' :: r => some r
    | ',' :: r =>
      match jsonValueF fuel (skipWs r) with
      | none => none
      | some r1 => jsonArrayTailF fuel (skipWs r1)
    | _ => none
end

/-- Whether `json.loads` accepts the string: optional surrounding
whitespace around exactly one JSON value, nothing else (`decode` raises
"Extra data" on trailing input and "Expecting value" on an empty one). -/
def jsonWellformed (s : Chars) : Bool :=
  match jsonValueF (s.length + 1) (skipWs s) with
  | none => false
  | some r => (skipWs r).isEmpty

/-- A local filesystem path: parent directories plus a final file name. -/
structure PathM where
  dir : List Chars
  name : Chars
deriving DecidableEq

/-- Index of the last `.` in a name (Python `name.rfind(".")`, as an
`Option`), via a left-to-right scan keeping the latest hit. -/
def rfindDotAux : Chars → Option Nat → Nat → Option Nat
  | [], acc, _ => acc
  | c :: rest, acc, i => rfindDotAux rest (if c = '.' then some i else acc) (i + 1)

/-- Index of the last `.` in a name, if any. -/
def rfindDot (nm : Chars) : Option Nat := rfindDotAux nm none 0

/-- pathlib's `PurePath.suffix` on a file name: the part from the last dot
on, provided that dot is neither the first nor the last character. -/
def pySuffix (nm : Chars) : Chars :=
  match rfindDot nm with
  | some i => if 0 < i ∧ i < nm.length - 1 then nm.drop i else []
  | none => []

/-- pathlib's `with_suffix(".html")` on a path: drop the current suffix of
the final name, if any, and append `.html`. -/
def withSuffixHtml (p : PathM) : PathM :=
  let old := pySuffix p.name
  let nm :=
    if old.isEmpty then p.name ++ (".html").data
    else p.name.take (p.name.length - old.length) ++ (".html").data
  { p with name := nm }

/-- Model of `SharepointDownloader.get_download_path`: the host-computed
path (the `super()` call, received here as `hostPath`) gets its extension
forced to `.html` exactly when the record's content-type tag equals
`site_page`; otherwise it is returned untouched. -/
def get_download_path (hostPath : PathM) (fd : FileData) : PathM :=
  if dictGet fd.additional_metadata contentTypeKey =
      some (PropValue.str SharepointContentType.sitepage.value) then
    withSuffixHtml hostPath
  else hostPath

/-- The file-system effects the downloader can perform. -/
inductive IOEffect where
  | mkdirParents (p : PathM)
  | writeFile (p : PathM)
deriving DecidableEq

/-- The exceptions `SharepointDownloader.run` can raise from its own
logic, with their payloads: the two explicit `ValueError`s of the tag
dispatch, the `json.JSONDecodeError` (a `ValueError` subclass) that
`json.loads` raises on a malformed canvas/layout string inside
`get_site_page`, and the `TypeError` (not a `ValueError`) that
`json.loads` raises when handed a truthy non-string value. -/
inductive DlError where
  | missingContentType (md : List (Chars × PropValue))
  | contentTypeNotRecognized (ct : PropValue)
  | jsonDecodeError (raw : Chars)
  | typeErrorNotAString (v : PropValue)
deriving DecidableEq

/-- Whether the exception is a `ValueError` in Python's hierarchy:
both explicit `ValueError`s and `JSONDecodeError` are; `TypeError` is
not. -/
def DlError.isValueError : DlError → Bool
  | .typeErrorNotAString _ => false
  | _ => true

/-- One `json.loads` call of `get_site_page` on an optional raw metadata
value: a missing or falsy value is skipped (`if raw:`); a truthy string is
parsed, raising `JSONDecodeError` when malformed; a truthy non-string
makes `json.loads` raise `TypeError`. -/
def json_loads_field : Option PropValue → Except DlError Unit
  | none => Except.ok ()
  | some v =>
    if !v.truthy then Except.ok ()
    else
      match v with
      | PropValue.str s =>
        if jsonWellformed s then Except.ok () else Except.error (DlError.jsonDecodeError s)
      | _ => Except.error (DlError.typeErrorNotAString v)

/-- The two `json.loads` calls of `get_site_page`, in source order:
`LayoutWebpartsContent` first, then `CanvasContent1`.  Both happen before
the download path is resolved and before any directory creation or file
write. -/
def site_page_parse (fd : FileData) : Except DlError Unit := do
  json_loads_field (dictGet fd.additional_metadata (("LayoutWebpartsContent").data))
  json_loads_field (dictGet fd.additional_metadata (("CanvasContent1").data))

/-- The host pipeline's `DownloadResponse`, reduced to what the connector
returns: the record and the local path written. -/
structure DownloadResponseM where
  file_data : FileData
  path : PathM
deriving DecidableEq

/-- Model of `SharepointDownloader.run` together with the file I/O it
performs.  A falsy or missing tag raises the missing-metadata
`ValueError`.  A `document` tag resolves the download path, creates
parent directories and streams the file (`get_document`; the SDK fetch is
summarized by the effects).  A `site_page` tag first runs the two
`json.loads` calls of `get_site_page` on the record's metadata — a
malformed canvas/layout string raises `JSONDecodeError`, a `ValueError`
subclass — and only then resolves the path, creates directories and
writes the re-serialized html (the lxml round-trip of the always
non-empty `<div>` wrapper raises nothing).  Any other tag raises the
not-recognized `ValueError`.  Errors carry an empty effect list: they are
raised before any file I/O. -/
def downloader_run (hostPath : PathM) (fd : FileData) :
    List IOEffect × Except DlError DownloadResponseM :=
  match dictGet fd.additional_metadata contentTypeKey with
  | none => ([], Except.error (DlError.missingContentType fd.additional_metadata))
  | some ct =>
    if !ct.truthy then
      ([], Except.error (DlError.missingContentType fd.additional_metadata))
    else if ct = PropValue.str SharepointContentType.document.value then
      let dp := get_download_path hostPath fd
      ([IOEffect.mkdirParents dp, IOEffect.writeFile dp],
        Except.ok { file_data := fd, path := dp })
    else if ct = PropValue.str SharepointContentType.sitepage.value then
      match site_page_parse fd with
      | Except.error e => ([], Except.error e)
      | Except.ok _ =>
        let dp := get_download_path hostPath fd
        ([IOEffect.mkdirParents dp, IOEffect.writeFile dp],
          Except.ok { file_data := fd, path := dp })
    else ([], Except.error (DlError.contentTypeNotRecognized ct))

/-! Concrete inputs used by witness and counterexample theorems. -/

/-- A site page whose `Url` is `/docs/p.aspx`. -/
def pageDocsW : SitePage :=
  { properties := [((("Url").data), PropValue.str (("/docs/p.aspx").data))]
    first_published := []
    file_name := ("p.aspx").data }

/-- A file under `/docs/subdocs/`, whose path contains the configured path
`docs` twice. -/
def fileSubdocsW : SPFile :=
  { name := ("f.txt").data
    serverRelativeUrl := ("/docs/subdocs/f.txt").data
    unique_id := ("u1").data
    time_created := []
    time_last_modified := []
    major_version := 1
    minor_version := 0
    properties := [] }

/-- A file whose server-relative url equals `/` plus the configured path. -/
def fileSlashW : SPFile :=
  { name := ("docs").data
    serverRelativeUrl := ("/docs").data
    unique_id := ("u3").data
    time_created := []
    time_last_modified := []
    major_version := 1
    minor_version := 0
    properties := [] }

/-- A site page with no `Url` property (so `get_property("Url", "")` yields
the empty string). -/
def pageNoUrlW : SitePage :=
  { properties := [], first_published := [], file_name := [] }

/-- The file inside the `FormsArchive` child folder. -/
def cexFormsFile : SPFile :=
  { name := ("a.txt").data
    serverRelativeUrl := ("/r/FormsArchive/a.txt").data
    unique_id := ("u2").data
    time_created := []
    time_last_modified := []
    major_version := 1
    minor_version := 0
    properties := [] }

/-- A child folder named `FormsArchive`: `Forms` is not one of its path
segments, yet its url contains the substring `/Forms`. -/
def cexFormsFolder : Folder :=
  Folder.mk (("/r/FormsArchive").data) (("FormsArchive").data) [cexFormsFile] FolderList.nil

/-- A root folder whose only child is `cexFormsFolder`. -/
def cexFormsRoot : Folder :=
  Folder.mk (("/r").data) (("r").data) [] (FolderList.cons cexFormsFolder FolderList.nil)

/-- A file directly under `/lib`. -/
def wfFileW : SPFile :=
  { name := ("a.txt").data
    serverRelativeUrl := ("/lib/a.txt").data
    unique_id := ("u4").data
    time_created := []
    time_last_modified := []
    major_version := 1
    minor_version := 0
    properties := [] }

/-- A well-formed single-folder tree rooted at `/lib`. -/
def wfRootW : Folder :=
  Folder.mk (("/lib").data) (("lib").data) [wfFileW] FolderList.nil

/-- A permission attached to the drive item `itemW`. -/
def permW : Permission :=
  { id := ("perm1").data
    roles := [("read").data]
    share_id := []
    has_password := false
    link := []
    granted_to_identities := []
    granted_to := []
    granted_to_v2 := []
    granted_to_identities_v2 := []
    invitation := [] }

/-- A drive item with etag `0x1` and one permission. -/
def itemW : DriveItem :=
  { etag := ("0x1").data, dname := ("f.txt").data, permissions := [permW] }

/-- A file record carrying ETag `0x1` and no permissions data. -/
def fdInW : FileData :=
  { identifier := some (("u1").data)
    connector_type := ("sharepoint").data
    source_identifiers :=
      { filename := ("f.txt").data
        fullpath := ("/docs/f.txt").data
        rel_path := ("f.txt").data }
    metadata :=
      { url := none
        version := none
        date_modified := none
        date_created := none
        date_processed := none
        record_locator := []
        permissions_data := none }
    additional_metadata := [((("ETag").data), PropValue.str (("0x1").data))] }

/-- The record `fdInW` after enrichment against `[itemW]`. -/
def fdOutW : FileData :=
  { fdInW with metadata := { fdInW.metadata with
      permissions_data := some [map_permission permW] } }

/-- A record tagged `site_page`. -/
def fdPageTagW : FileData :=
  { fdInW with additional_metadata :=
      [(contentTypeKey, PropValue.str (("site_page").data))] }

/-- A record tagged with the reserved `list` tag. -/
def fdListTagW : FileData :=
  { fdInW with additional_metadata :=
      [(contentTypeKey, PropValue.str (("list").data))] }

/-- A record tagged `site_page` whose `CanvasContent1` holds the malformed
JSON string consisting of a single opening brace. -/
def fdBadJsonW : FileData :=
  { fdInW with additional_metadata :=
      [(contentTypeKey, PropValue.str (("site_page").data)),
       ((("CanvasContent1").data), PropValue.str (("\x7b").data))] }

/-- A host-computed download path ending in `Home.aspx`. -/
def hostPathW : PathM :=
  { dir := [("tmp").data], name := ("Home.aspx").data }

/-- An indexer configuration with an explicit path `docs` and nothing
omitted. -/
def cfgW : SharepointIndexerConfig :=
  { path := some (("docs").data)
    recursive := false
    omit_files := false
    omit_pages := false
    omit_lists := false }

/-- The same configuration with no path configured. -/
def cfgNoPathW : SharepointIndexerConfig := { cfgW with path := none }

/-- A connection configuration without permissions. -/
def ccW : SharepointConnectionConfig :=
  { client_id := [], site := [], client_cred := [], permissions_config := none }

/-- A one-file folder at `/docs`. -/
def folderW : Folder :=
  Folder.mk (("/docs").data) (("docs").data) [fileSubdocsW] FolderList.nil

/-- A site client exposing `folderW` everywhere and no pages. -/
def clientW : SPClient :=
  { base_url := []
    serverFolders := fun _ => folderW
    defaultLibraryRoot := folderW
    pages := [] }

/-- The canonical record `file_to_file_data` produces for `fileSubdocsW`
with path `docs`, identity date/quote helpers and empty clock and base
url. -/
def fdFileW : FileData :=
  { identifier := some (("u1").data)
    connector_type := ("sharepoint").data
    source_identifiers :=
      { filename := ("f.txt").data
        fullpath := ("/docs/subdocs/f.txt").data
        rel_path := ("sub/f.txt").data }
    metadata :=
      { url := some (("/docs/subdocs/f.txt").data)
        version := some (("1.0").data)
        date_modified := none
        date_created := none
        date_processed := some []
        record_locator :=
          [((("server_path").data), ("/docs/subdocs/f.txt").data),
           ((("site_url").data), [])]
        permissions_data := none }
    additional_metadata :=
      [(contentTypeKey, PropValue.str (("document").data))] }

/-! Helper lemmas. -/

/-- The stripping loop raises (returns `none`) on a string of slashes. -/
theorem stripSlashes_eq_none : ∀ s : Chars, (∀ c ∈ s, c = '/') → stripSlashes s = none
  | [], _ => rfl
  | c :: rest, h => by
    have hc : c = '/' := h c (List.mem_cons_self c rest)
    have ih := stripSlashes_eq_none rest (fun d hd => h d (List.mem_cons_of_mem c hd))
    simp [stripSlashes, hc, ih]

/-- A successful run of the stripping loop never leaves a leading slash. -/
theorem stripSlashes_head : ∀ s r : Chars, stripSlashes s = some r → r.head? ≠ some '/'
  | [], r, h => by simp [stripSlashes] at h
  | c :: rest, r, h => by
    by_cases hc : c = '/'
    · rw [stripSlashes, if_pos hc] at h
      exact stripSlashes_head rest r h
    · rw [stripSlashes, if_neg hc] at h
      cases h
      simpa using hc

/-- A key with no binding contributes no filtered entries. -/
theorem countKey_eq_zero {α : Type} (k : Chars) :
    ∀ d : List (Chars × α), k ∉ d.map Prod.fst → countKey d k = 0
  | [], _ => rfl
  | kv :: d, h => by
    have h1 : (kv.1 == k) = false := by
      rw [beq_eq_false_iff_ne]
      intro hk
      apply h
      rw [List.map_cons, hk]
      exact List.mem_cons_self k _
    have h2 : k ∉ d.map Prod.fst := fun hk => h (by simp [hk])
    have ih := countKey_eq_zero k d h2
    simp only [countKey] at ih ⊢
    simp [List.filter_cons, h1, ih]

/-- Updating a dict with pairwise-distinct keys leaves exactly one binding
of the updated key. -/
theorem countKey_dictSet {α : Type} (k : Chars) (v : α) :
    ∀ d : List (Chars × α), (d.map Prod.fst).Nodup → countKey (dictSet k v d) k = 1
  | [], _ => by simp [countKey, dictSet]
  | kv :: d, h => by
    rw [List.map_cons, List.nodup_cons] at h
    by_cases hk : kv.1 = k
    · have hz : countKey d k = 0 := countKey_eq_zero k d (hk ▸ h.1)
      have hb : (kv.1 == k) = true := beq_iff_eq.mpr hk
      simp only [countKey] at hz ⊢
      simp [dictSet, hb, List.filter_cons, hz]
    · have hb : (kv.1 == k) = false := beq_eq_false_iff_ne.mpr hk
      have ih := countKey_dictSet k v d h.2
      simp only [countKey] at ih ⊢
      simp [dictSet, hb, List.filter_cons, ih]

/-- Looking up the updated key returns the new value. -/
theorem dictGet_dictSet {α : Type} (k : Chars) (v : α) :
    ∀ d : List (Chars × α), dictGet (dictSet k v d) k = some v
  | [] => by simp [dictGet, dictSet, List.find?]
  | kv :: d => by
    by_cases hk : kv.1 = k
    · simp [dictGet, dictSet, hk, List.find?]
    · have ih := dictGet_dictSet k v d
      simp only [dictGet] at ih
      simp [dictGet, dictSet, hk, List.find?, ih]

/-- The filtered property dict is a sublist of the raw one. -/
theorem get_properties_sublist (raw : List (Chars × PropValue)) :
    List.Sublist (get_properties raw) raw :=
  (List.filter_sublist _).trans (List.filter_sublist _)

/-- Filtering properties preserves distinctness of keys. -/
theorem get_properties_keys_nodup (raw : List (Chars × PropValue))
    (h : (raw.map Prod.fst).Nodup) : ((get_properties raw).map Prod.fst).Nodup :=
  List.Nodup.sublist (List.Sublist.map Prod.fst (get_properties_sublist raw)) h

/-! Claim C3: which raw properties survive `get_properties`. -/

/-- C3 counterexample: the pair `("a", None)` is JSON-serializable
(`json.dumps(None)` succeeds) yet `get_properties` drops it, because the
first comprehension drops every falsy value; so "a key-value pair is
dropped if and only if its value cannot be JSON-serialized" is false. -/
theorem claim_C3_counterexample :
    get_properties [((("a").data), PropValue.null)] = [] ∧
      PropValue.jsonSerializable PropValue.null = true := by decide

/-- C3 (amended): `get_properties` keeps exactly the pairs whose value is
both truthy and JSON-serializable; dropping is silent (the function is
total, so a non-serializable or falsy value never fails the record). -/
theorem claim_C3_amended (raw : List (Chars × PropValue)) (k : Chars) (v : PropValue) :
    (k, v) ∈ get_properties raw ↔
      (k, v) ∈ raw ∧ v.truthy = true ∧ v.jsonSerializable = true := by
  simp only [get_properties, List.mem_filter]
  constructor
  · rintro ⟨⟨h1, h2⟩, h3⟩
    exact ⟨h1, h2, h3⟩
  · rintro ⟨h1, h2, h3⟩
    exact ⟨⟨h1, h2⟩, h3⟩

/-! Claim C9: the configuration side effect of `get_root`. -/

/-- C9: `get_root` mutates the indexer configuration exactly when no
explicit (truthy) path is configured: with a configured path it returns
the folder at that path and the configuration unchanged; otherwise it
returns the default document library root folder and persists that
folder's name into `path`, leaving every other configuration field
unchanged. -/
theorem claim_C9 (cfg : SharepointIndexerConfig) (client : SPClient) :
    (optTruthy cfg.path = true →
       get_root cfg client = (client.serverFolders (cfg.path.getD []), cfg)) ∧
    (optTruthy cfg.path = false →
       (get_root cfg client).1 = client.defaultLibraryRoot ∧
       (get_root cfg client).2.path = some client.defaultLibraryRoot.fname ∧
       (get_root cfg client).2.recursive = cfg.recursive ∧
       (get_root cfg client).2.omit_files = cfg.omit_files ∧
       (get_root cfg client).2.omit_pages = cfg.omit_pages ∧
       (get_root cfg client).2.omit_lists = cfg.omit_lists) := by
  cases hp : cfg.path with
  | none => simp [get_root, optTruthy, hp]
  | some p =>
    by_cases he : p.isEmpty <;> simp [get_root, optTruthy, hp, he]

/-- C9 witness: with no configured path, `get_root` persists the default
library root folder's name (`docs`) into the configuration. -/
theorem claim_C9_witness :
    (get_root cfgNoPathW clientW).2.path = some (("docs").data) :=
  ((claim_C9 cfgNoPathW clientW).2 (by decide)).2.1

/-! Claim C10: the unguarded `s[0]` accesses. -/

/-- C10: `file_to_file_data` raises an uncaught `IndexError` whenever
removing every occurrence of the configured path from the file's
server-relative url leaves only `/` characters or nothing (for example a
fullpath equal to the configured root path), and `page_to_file_data`
raises `IndexError` when the page's `Url` property is the empty string. -/
theorem claim_C10 (pdt : Chars → Chars) (now : Chars) (quoteUrl : Chars → Chars)
    (base_url path : Chars) (file : SPFile) (page : SitePage)
    (hf : ∀ c ∈ removeAll path file.serverRelativeUrl, c = '/')
    (hp : getStrD page.properties (("Url").data) [] = []) :
    file_to_file_data pdt now quoteUrl base_url path file = Except.error PyError.indexError ∧
      page_to_file_data pdt now path page = Except.error PyError.indexError := by
  constructor
  · simp [file_to_file_data, stripSlashes_eq_none _ hf]
  · simp [page_to_file_data, hp]

/-- C10 witness: a file at `/docs` under configured path `docs` (the
replaced string is `/`) and a page with empty `Url` both raise. -/
theorem claim_C10_witness :
    file_to_file_data (fun s => s) [] (fun s => s) [] (("docs").data) fileSlashW =
        Except.error PyError.indexError ∧
      page_to_file_data (fun s => s) [] (("docs").data) pageNoUrlW =
        Except.error PyError.indexError :=
  claim_C10 (fun s => s) [] (fun s => s) [] (("docs").data) fileSlashW pageNoUrlW
    (by decide) (by decide)

/-! Claim C1: the rel_path computation. -/

/-- C1 counterexample: with configured path `docs`, the page at url
`/docs/p.aspx` gets `rel_path = "//p.aspx"` — leading separators remain,
because `page_to_file_data` does no separator stripping — and the file at
`/docs/subdocs/f.txt` gets `rel_path = "sub/f.txt"` rather than
`subdocs/f.txt`, because `replace` removes the non-prefix occurrence of
`docs` inside `subdocs` too.  Both contradict "fullpath with the
configured root path prefix removed and no leading separator remaining". -/
theorem claim_C1_counterexample :
    (page_to_file_data (fun s => s) [] (("docs").data) pageDocsW).map
        (fun fd => fd.source_identifiers.rel_path) =
      Except.ok (("//p.aspx").data) ∧
    (("//p.aspx").data).head? = some '/' ∧
    (file_to_file_data (fun s => s) [] (fun s => s) [] (("docs").data) fileSubdocsW).map
        (fun fd => fd.source_identifiers.rel_path) =
      Except.ok (("sub/f.txt").data) ∧
    ("sub/f.txt").data ≠ ("subdocs/f.txt").data :=
  ⟨rfl, rfl, rfl, by decide⟩

/-- C1 (amended): when `file_to_file_data` succeeds, the record's
`rel_path` is `fullpath` with every occurrence of the configured path
removed and all leading slashes then stripped, so it never begins with a
separator; when `page_to_file_data` succeeds, the record's `rel_path` is
the page url with every occurrence of the configured path removed, with
leading separators retained. -/
theorem claim_C1_amended (pdt : Chars → Chars) (now : Chars) (quoteUrl : Chars → Chars)
    (base_url path : Chars) (file : SPFile) (page : SitePage) :
    (∀ fd, file_to_file_data pdt now quoteUrl base_url path file = Except.ok fd →
       fd.source_identifiers.fullpath = file.serverRelativeUrl ∧
       stripSlashes (removeAll path file.serverRelativeUrl) =
         some fd.source_identifiers.rel_path ∧
       fd.source_identifiers.rel_path.head? ≠ some '/') ∧
    (∀ fd, page_to_file_data pdt now path page = Except.ok fd →
       fd.source_identifiers.fullpath = getStrD page.properties (("Url").data) [] ∧
       fd.source_identifiers.rel_path = removeAll path fd.source_identifiers.fullpath) := by
  constructor
  · intro fd h
    simp only [file_to_file_data] at h
    split at h
    · exact Except.noConfusion h
    · injection h with h
      subst h
      refine ⟨rfl, ?_, ?_⟩
      · assumption
      · exact stripSlashes_head _ _ (by assumption)
  · intro fd h
    simp only [page_to_file_data] at h
    split at h
    · exact Except.noConfusion h
    · injection h with h
      subst h
      exact ⟨(by assumption : getStrD page.properties (("Url").data) [] = _).symm, rfl⟩

/-- C1 witness: applying the amended claim to the concrete file under
`/docs/subdocs/` recovers its computed `rel_path`. -/
theorem claim_C1_amended_witness :
    stripSlashes (removeAll (("docs").data) fileSubdocsW.serverRelativeUrl) =
      some fdFileW.source_identifiers.rel_path :=
  ((claim_C1_amended (fun s => s) [] (fun s => s) [] (("docs").data) fileSubdocsW
    pageDocsW).1 fdFileW (by rfl)).2.1

/-! Claim C7: the content-type tag invariant. -/

/-- C7: every record built by `file_to_file_data` or `page_to_file_data`
carries exactly one `sharepoint_content_type` binding in its
`additional_metadata` — value `document` for files and `site_page` for
pages — and the tag is present even though the metadata passed through
the `get_properties` serializability filter, because it is injected after
filtering. -/
theorem claim_C7 (pdt : Chars → Chars) (now : Chars) (quoteUrl : Chars → Chars)
    (base_url path : Chars) (file : SPFile) (page : SitePage)
    (hfile : (file.properties.map Prod.fst).Nodup)
    (hpage : (page.properties.map Prod.fst).Nodup) :
    (∀ fd, file_to_file_data pdt now quoteUrl base_url path file = Except.ok fd →
       countKey fd.additional_metadata contentTypeKey = 1 ∧
       dictGet fd.additional_metadata contentTypeKey =
         some (PropValue.str SharepointContentType.document.value)) ∧
    (∀ fd, page_to_file_data pdt now path page = Except.ok fd →
       countKey fd.additional_metadata contentTypeKey = 1 ∧
       dictGet fd.additional_metadata contentTypeKey =
         some (PropValue.str SharepointContentType.sitepage.value)) := by
  constructor
  · intro fd h
    simp only [file_to_file_data] at h
    split at h
    · exact Except.noConfusion h
    · injection h with h
      subst h
      exact ⟨countKey_dictSet _ _ _ (get_properties_keys_nodup _ hfile),
        dictGet_dictSet _ _ _⟩
  · intro fd h
    simp only [page_to_file_data] at h
    split at h
    · exact Except.noConfusion h
    · injection h with h
      subst h
      exact ⟨countKey_dictSet _ _ _ (get_properties_keys_nodup _ hpage),
        dictGet_dictSet _ _ _⟩

/-- C7 witness: the concrete file record for `fileSubdocsW` carries the
single `document` tag. -/
theorem claim_C7_witness :
    countKey fdFileW.additional_metadata contentTypeKey = 1 ∧
      dictGet fdFileW.additional_metadata contentTypeKey =
        some (PropValue.str SharepointContentType.document.value) :=
  (claim_C7 (fun s => s) [] (fun s => s) [] (("docs").data) fileSubdocsW pageDocsW
    (by decide) (by decide)).1 fdFileW (by rfl)

/-! Claim C8: the forced `.html` extension. -/

/-- Scanning a concatenation keeps the accumulator through the left part. -/
theorem rfindDotAux_append (ys : Chars) :
    ∀ (xs : Chars) (acc : Option Nat) (i : Nat),
      rfindDotAux (xs ++ ys) acc i = rfindDotAux ys (rfindDotAux xs acc i) (i + xs.length)
  | [], acc, i => by simp [rfindDotAux]
  | c :: xs, acc, i => by
    show rfindDotAux (xs ++ ys) (if c = '.' then some i else acc) (i + 1) =
      rfindDotAux ys (rfindDotAux xs (if c = '.' then some i else acc) (i + 1))
        (i + (xs.length + 1))
    rw [rfindDotAux_append ys xs (if c = '.' then some i else acc) (i + 1)]
    congr 1
    omega

/-- A dot-free tail leaves the accumulator unchanged. -/
theorem rfindDotAux_no_dot :
    ∀ (l : Chars) (acc : Option Nat) (i : Nat), (∀ c ∈ l, c ≠ '.') → rfindDotAux l acc i = acc
  | [], _, _, _ => rfl
  | c :: l, acc, i, h => by
    have hc : c ≠ '.' := h c (List.mem_cons_self c l)
    rw [rfindDotAux, if_neg hc]
    exact rfindDotAux_no_dot l acc (i + 1) fun d hd => h d (List.mem_cons_of_mem c hd)

/-- The last dot of `stem ++ "." ++ tail` with a dot-free tail sits right
after the stem. -/
theorem rfindDot_append_dot (stem tail : Chars) (htail : ∀ c ∈ tail, c ≠ '.') :
    rfindDot (stem ++ '.' :: tail) = some stem.length := by
  show rfindDotAux (stem ++ '.' :: tail) none 0 = some stem.length
  rw [rfindDotAux_append ('.' :: tail) stem none 0]
  show rfindDotAux tail (some (0 + stem.length)) ((0 + stem.length) + 1) = some stem.length
  rw [rfindDotAux_no_dot tail _ _ htail]
  simp

/-- Appending a dot plus a non-empty, dot-free extension to a non-empty
name yields exactly that suffix. -/
theorem pySuffix_append_ext (stem tail : Chars) (h : stem ≠ []) (hne : tail ≠ [])
    (htail : ∀ c ∈ tail, c ≠ '.') :
    pySuffix (stem ++ '.' :: tail) = '.' :: tail := by
  have hfind := rfindDot_append_dot stem tail htail
  have hlen : 0 < stem.length := List.length_pos.mpr h
  have htl : 0 < tail.length := List.length_pos.mpr hne
  have hcond : 0 < stem.length ∧ stem.length < (stem ++ '.' :: tail).length - 1 := by
    refine ⟨hlen, ?_⟩
    rw [List.length_append, List.length_cons]
    omega
  simp only [pySuffix, hfind]
  rw [if_pos hcond]
  exact List.drop_left stem ('.' :: tail)

/-- Appending `.html` to a non-empty name yields suffix `.html`. -/
theorem pySuffix_append_html (stem : Chars) (h : stem ≠ []) :
    pySuffix (stem ++ (".html").data) = (".html").data :=
  pySuffix_append_ext stem (("html").data) h (by decide) (by decide)

/-- After `with_suffix(".html")` on a path with a non-empty name, the
name's suffix is `.html`. -/
theorem pySuffix_withSuffixHtml (p : PathM) (h : p.name ≠ []) :
    pySuffix (withSuffixHtml p).name = (".html").data := by
  rcases hfind : rfindDot p.name with _ | i
  · have hps : pySuffix p.name = [] := by simp [pySuffix, hfind]
    simp only [withSuffixHtml, hps, List.isEmpty_nil, if_true]
    exact pySuffix_append_html p.name h
  · by_cases hcond : 0 < i ∧ i < p.name.length - 1
    · obtain ⟨hi0, hi1⟩ := hcond
      have hps : pySuffix p.name = p.name.drop i := by
        simp only [pySuffix, hfind]
        rw [if_pos ⟨hi0, hi1⟩]
      have hdlen : (p.name.drop i).length = p.name.length - i := by simp
      have hdropne : p.name.drop i ≠ [] := by
        intro h0
        have h1 := congrArg List.length h0
        rw [hdlen] at h1
        simp at h1
        omega
      have hdropemp : (p.name.drop i).isEmpty = false := by
        cases hd : p.name.drop i with
        | nil => exact absurd hd hdropne
        | cons a l => rfl
      have harith : p.name.length - (p.name.drop i).length = i := by
        rw [hdlen]
        omega
      have htakene : p.name.take i ≠ [] := by
        intro h0
        have h1 := congrArg List.length h0
        rw [List.length_take] at h1
        simp only [List.length_nil] at h1
        rcases Nat.min_eq_zero_iff.mp h1 with h2 | h2 <;> omega
      simp only [withSuffixHtml, hps, hdropemp, Bool.false_eq_true, if_false, harith]
      exact pySuffix_append_html (p.name.take i) htakene
    · have hps : pySuffix p.name = [] := by
        simp only [pySuffix, hfind]
        rw [if_neg hcond]
      simp only [withSuffixHtml, hps, List.isEmpty_nil, if_true]
      exact pySuffix_append_html p.name h

/-- C8: `get_download_path` forces the `.html` extension on the
host-computed path exactly for records tagged `site_page`; for any other
(or missing) tag the host-computed path is returned untouched. -/
theorem claim_C8 (hostPath : PathM) (fd : FileData) (hname : hostPath.name ≠ []) :
    (dictGet fd.additional_metadata contentTypeKey =
        some (PropValue.str SharepointContentType.sitepage.value) →
      pySuffix (get_download_path hostPath fd).name = (".html").data) ∧
    (dictGet fd.additional_metadata contentTypeKey ≠
        some (PropValue.str SharepointContentType.sitepage.value) →
      get_download_path hostPath fd = hostPath) := by
  constructor
  · intro h
    simp only [get_download_path]
    rw [if_pos h]
    exact pySuffix_withSuffixHtml hostPath hname
  · intro h
    simp only [get_download_path]
    rw [if_neg h]

/-- C8 witness: a record tagged `site_page` whose host path ends in
`Home.aspx` resolves to a path with suffix `.html`. -/
theorem claim_C8_witness :
    pySuffix (get_download_path hostPathW fdPageTagW).name = (".html").data :=
  (claim_C8 hostPathW fdPageTagW (by decide)).1 (by decide)

/-! Claim C2: permission enrichment. -/

/-- Shared shape of the cases where enrichment leaves a record without a
usable fingerprint unchanged. -/
theorem enrich_unchanged_of_no_fingerprint (items : List DriveItem) (fd : FileData)
    (h : fd.metadata.permissions_data = none)
    (he : enrich_one items fd = fd) (hf : fingerprint fd = none) :
    ((enrich_one items fd).metadata.permissions_data ≠ none ↔
       ∃ e, fingerprint fd = some e ∧ (items.filter fun x => x.etag == e).length = 1) ∧
    ((¬ ∃ e, fingerprint fd = some e ∧ (items.filter fun x => x.etag == e).length = 1) →
       enrich_one items fd = fd) := by
  rw [he, hf, h]
  constructor
  · constructor
    · intro hne
      exact absurd rfl hne
    · rintro ⟨e, he', _⟩
      exact Option.noConfusion he'
  · intro _
    rfl

/-- Shared shape of the cases where a fingerprinted record matches zero or
several drive items and is left unchanged. -/
theorem enrich_unchanged_of_bad_match (items : List DriveItem) (fd : FileData) (e : Chars)
    (h : fd.metadata.permissions_data = none)
    (he : enrich_one items fd = fd) (hf : fingerprint fd = some e)
    (hlen : (items.filter fun x => x.etag == e).length ≠ 1) :
    ((enrich_one items fd).metadata.permissions_data ≠ none ↔
       ∃ e, fingerprint fd = some e ∧ (items.filter fun x => x.etag == e).length = 1) ∧
    ((¬ ∃ e, fingerprint fd = some e ∧ (items.filter fun x => x.etag == e).length = 1) →
       enrich_one items fd = fd) := by
  rw [he, hf, h]
  constructor
  · constructor
    · intro hne
      exact absurd rfl hne
    · rintro ⟨e', he', hl⟩
      injection he' with he'
      subst he'
      exact absurd hl hlen
  · intro _
    rfl

/-- One enrichment step: a record (initially without permissions data)
ends up with permissions data exactly when it carries a usable fingerprint
matched by exactly one drive item, and is left unchanged otherwise. -/
theorem enrich_one_spec (items : List DriveItem) (fd : FileData)
    (h : fd.metadata.permissions_data = none) :
    ((enrich_one items fd).metadata.permissions_data ≠ none ↔
       ∃ e, fingerprint fd = some e ∧ (items.filter fun x => x.etag == e).length = 1) ∧
    ((¬ ∃ e, fingerprint fd = some e ∧ (items.filter fun x => x.etag == e).length = 1) →
       enrich_one items fd = fd) := by
  rcases hget : dictGet fd.additional_metadata (("ETag").data) with _ | v
  · exact enrich_unchanged_of_no_fingerprint items fd h
      (by simp [enrich_one, hget]) (by simp [fingerprint, hget])
  · cases v with
    | str e =>
      by_cases hemp : e.isEmpty
      · exact enrich_unchanged_of_no_fingerprint items fd h
          (by simp [enrich_one, hget, PropValue.truthy, hemp])
          (by simp [fingerprint, hget, hemp])
      · have hf : fingerprint fd = some e := by simp [fingerprint, hget, hemp]
        rcases hfil : items.filter (fun x => x.etag == e) with _ | ⟨m, ms⟩
        · exact enrich_unchanged_of_bad_match items fd e h
            (by simp [enrich_one, hget, PropValue.truthy, hemp, hfil]) hf
            (by rw [hfil]; simp)
        · cases ms with
          | nil =>
            have he : enrich_one items fd =
                { fd with metadata := { fd.metadata with
                    permissions_data := some (m.permissions.map map_permission) } } := by
              simp [enrich_one, hget, PropValue.truthy, hemp, hfil]
            have hex : ∃ e', fingerprint fd = some e' ∧
                (items.filter fun x => x.etag == e').length = 1 :=
              ⟨e, hf, by rw [hfil]; rfl⟩
            rw [he]
            constructor
            · constructor
              · intro _
                exact hex
              · intro _
                simp
            · intro hno
              exact absurd hex hno
          | cons m2 ms2 =>
            exact enrich_unchanged_of_bad_match items fd e h
              (by simp [enrich_one, hget, PropValue.truthy, hemp, hfil]) hf
              (by rw [hfil]; simp)
    | num n =>
      exact enrich_unchanged_of_no_fingerprint items fd h
        (by simp [enrich_one, hget]) (by simp [fingerprint, hget])
    | bool b =>
      exact enrich_unchanged_of_no_fingerprint items fd h
        (by simp [enrich_one, hget]) (by simp [fingerprint, hget])
    | null =>
      exact enrich_unchanged_of_no_fingerprint items fd h
        (by simp [enrich_one, hget]) (by simp [fingerprint, hget])
    | handle t =>
      exact enrich_unchanged_of_no_fingerprint items fd h
        (by simp [enrich_one, hget]) (by simp [fingerprint, hget])

/-- C2: after `enrich_permissions_on_files` runs over a batch of records
with no prior permissions data and a fixed set of drive items, the `i`-th
output record has `permissions_data` set iff the `i`-th input record
carries a (truthy) ETag matched by exactly one drive item's etag; in every
other case — no usable ETag, zero matches, or several matches (which only
logs a warning) — the record is returned unmodified, and no case is an
error (the function is total). -/
theorem claim_C2 (items : List DriveItem) (fds : List FileData)
    (h0 : ∀ fd ∈ fds, fd.metadata.permissions_data = none) :
    ∀ (i : Nat) (fd fd' : FileData), fds[i]? = some fd →
      (enrich_permissions_on_files items fds)[i]? = some fd' →
      ((fd'.metadata.permissions_data ≠ none ↔
          ∃ e, fingerprint fd = some e ∧ (items.filter fun x => x.etag == e).length = 1) ∧
       ((¬ ∃ e, fingerprint fd = some e ∧
            (items.filter fun x => x.etag == e).length = 1) →
          fd' = fd)) := by
  intro i fd fd' hi hi'
  have hmem : fd ∈ fds := List.getElem?_mem hi
  rw [enrich_permissions_on_files, List.getElem?_map, hi] at hi'
  injection hi' with hi'
  subst hi'
  exact enrich_one_spec items fd (h0 fd hmem)

/-- C2 witness: one record with ETag `0x1` against the single drive item
`itemW` (etag `0x1`) gets that item's mapped permissions attached. -/
theorem claim_C2_witness :
    (enrich_permissions_on_files [itemW] [fdInW])[0]? = some fdOutW ∧
      fdOutW.metadata.permissions_data ≠ none := by
  refine ⟨by decide, ?_⟩
  have h := claim_C2 [itemW] [fdInW] (by decide) 0 fdInW fdOutW (by decide) (by decide)
  exact h.1.mpr ⟨("0x1").data, by decide, by decide⟩

/-! Claim C4: the downloader's ValueError behavior. -/

/-- C4 counterexample: a record whose content-type tag is the recognized
`site_page` value but whose `CanvasContent1` is the malformed JSON string
`\x7b` makes `run` raise a `ValueError` all the same: `json.loads`
inside `get_site_page` raises `JSONDecodeError`, a `ValueError`
subclass.  This falsifies the claim's "only if" direction. -/
theorem claim_C4_counterexample :
    dictGet fdBadJsonW.additional_metadata contentTypeKey =
        some (PropValue.str SharepointContentType.sitepage.value) ∧
      (downloader_run hostPathW fdBadJsonW).2 =
        Except.error (DlError.jsonDecodeError (("\x7b").data)) ∧
      DlError.isValueError (DlError.jsonDecodeError (("\x7b").data)) = true :=
  ⟨rfl, rfl, rfl⟩

/-- C4 (amended): `SharepointDownloader.run` raises a `ValueError` exactly
when the record's content-type tag is not `document` and not `site_page`
(in particular when it is missing or falsy, and for the reserved `list`
tag, which gets the not-recognized error), or when the tag is `site_page`
and one of the two `json.loads` calls of `get_site_page` raises
`JSONDecodeError` (a `ValueError` subclass) on a malformed truthy
canvas/layout string; every error is raised with an empty effect list,
i.e. before any directory creation or file write. -/
theorem claim_C4_amended (hostPath : PathM) (fd : FileData) :
    ((∃ e, (downloader_run hostPath fd).2 = Except.error e ∧ e.isValueError = true) ↔
       (¬(dictGet fd.additional_metadata contentTypeKey =
            some (PropValue.str SharepointContentType.document.value) ∨
          dictGet fd.additional_metadata contentTypeKey =
            some (PropValue.str SharepointContentType.sitepage.value)) ∨
        (dictGet fd.additional_metadata contentTypeKey =
            some (PropValue.str SharepointContentType.sitepage.value) ∧
         ∃ e, site_page_parse fd = Except.error e ∧ e.isValueError = true))) ∧
    (∀ e, (downloader_run hostPath fd).2 = Except.error e →
       (downloader_run hostPath fd).1 = []) ∧
    (dictGet fd.additional_metadata contentTypeKey =
        some (PropValue.str SharepointContentType.list.value) →
      (downloader_run hostPath fd).2 =
        Except.error (DlError.contentTypeNotRecognized
          (PropValue.str SharepointContentType.list.value))) := by
  rcases hget : dictGet fd.additional_metadata contentTypeKey with _ | v
  · refine ⟨?_, ?_, ?_⟩
    · simp [downloader_run, hget, DlError.isValueError]
    · intro e _
      simp [downloader_run, hget]
    · intro h
      exact Option.noConfusion h
  · by_cases hdoc : v = PropValue.str SharepointContentType.document.value
    · subst hdoc
      refine ⟨?_, ?_, ?_⟩
      · simp [downloader_run, hget, PropValue.truthy, SharepointContentType.value]
      · intro e he
        simp [downloader_run, hget, PropValue.truthy, SharepointContentType.value] at he
      · intro h
        injection h with h
        exact absurd h (by decide)
    · by_cases hsp : v = PropValue.str SharepointContentType.sitepage.value
      · subst hsp
        rcases hparse : site_page_parse fd with e0 | u
        · refine ⟨?_, ?_, ?_⟩
          · simp [downloader_run, hget, PropValue.truthy, SharepointContentType.value,
              hparse]
          · intro e _
            simp [downloader_run, hget, PropValue.truthy, SharepointContentType.value,
              hparse]
          · intro h
            injection h with h
            exact absurd h (by decide)
        · refine ⟨?_, ?_, ?_⟩
          · simp [downloader_run, hget, PropValue.truthy, SharepointContentType.value,
              hparse]
          · intro e he
            simp [downloader_run, hget, PropValue.truthy, SharepointContentType.value,
              hparse] at he
          · intro h
            injection h with h
            exact absurd h (by decide)
      · refine ⟨?_, ?_, ?_⟩
        · constructor
          · intro _
            refine Or.inl ?_
            rintro (h | h)
            · injection h with h
              exact hdoc h
            · injection h with h
              exact hsp h
          · intro _
            by_cases ht : v.truthy
            · exact ⟨DlError.contentTypeNotRecognized v,
                by simp [downloader_run, hget, ht, hdoc, hsp], rfl⟩
            · exact ⟨DlError.missingContentType fd.additional_metadata,
                by simp [downloader_run, hget, ht], rfl⟩
        · intro e _
          by_cases ht : v.truthy <;> simp [downloader_run, hget, ht, hdoc, hsp]
        · intro h
          injection h with h
          subst h
          simp [downloader_run, hget, PropValue.truthy, SharepointContentType.value,
            hdoc, hsp]

/-- C4 witness: a record tagged with the reserved `list` tag gets the
not-recognized `ValueError`. -/
theorem claim_C4_amended_witness :
    (downloader_run hostPathW fdListTagW).2 =
      Except.error (DlError.contentTypeNotRecognized
        (PropValue.str SharepointContentType.list.value)) :=
  (claim_C4_amended hostPathW fdListTagW).2.2 (by decide)

/-! Claim C5: recursive enumeration and the reserved-folder filter. -/

/-- Membership in the child-folder loop: a file comes from some child that
passed the `"/Forms"` substring test. -/
theorem mem_list_files_rec (fi : SPFile) :
    ∀ fl : FolderList, fi ∈ list_files_rec fl ↔
      ∃ f, f ∈ fl.toList ∧ containsSub (("/Forms").data) f.url = false ∧
        fi ∈ list_files f true
  | .nil => by simp [list_files_rec, FolderList.toList]
  | .cons f fs => by
    have ih := mem_list_files_rec fi fs
    simp only [list_files_rec, FolderList.toList, List.mem_append, List.mem_cons, ih]
    constructor
    · rintro (h | ⟨g, hg, hc, hm⟩)
      · by_cases hc : containsSub (("/Forms").data) f.url
        · simp [hc] at h
        · exact ⟨f, Or.inl rfl, by simpa using hc, by simpa [hc] using h⟩
      · exact ⟨g, Or.inr hg, hc, hm⟩
    · rintro ⟨g, (rfl | hg), hc, hm⟩
      · exact Or.inl (by simp [hc, hm])
      · exact Or.inr ⟨g, hg, hc, hm⟩

/-- Soundness half of the traversal: starting from a well-formed root whose
url is free of `"/Forms"`, every returned file sits in a visited directory
whose url is free of `"/Forms"`. -/
theorem list_files_clean_dir :
    ∀ fo, WFFolder fo → containsSub (("/Forms").data) fo.url = false →
      ∀ fi ∈ list_files fo true,
        ∃ d, containsSub (("/Forms").data) d = false ∧
          fi.serverRelativeUrl = d ++ '/' :: fi.name := by
  intro fo h
  induction h with
  | mk u n files folders hfiles _ ih =>
    intro hclean fi hfi
    simp only [list_files, if_pos rfl] at hfi
    rcases List.mem_append.1 hfi with h1 | h2
    · exact ⟨u, by simpa [Folder.url] using hclean, hfiles fi h1⟩
    · rcases (mem_list_files_rec fi folders).1 h2 with ⟨g, hg, hc, hm⟩
      exact ih g hg hc fi hm

/-- C5 counterexample: the child folder `/r/FormsArchive` has no `Forms`
path segment, so the claim as stated requires its file to be accumulated,
but recursive enumeration returns nothing because the code's substring
test `"/Forms" in f.serverRelativeUrl` skips that folder. -/
theorem claim_C5_counterexample :
    list_files cexFormsRoot true = [] ∧
      ¬ (("Forms").data ∈ splitSegs (("/r/FormsArchive").data)) ∧
      cexFormsFile ∈ cexFormsFolder.files :=
  ⟨by decide, by decide, by decide⟩

/-- C5 (amended): recursive enumeration skips exactly the child folders
whose `serverRelativeUrl` contains the substring `"/Forms"` (not the
folders with a `Forms` path segment): over a well-formed tree whose root
url is free of `"/Forms"`, every returned file lies in a directory free of
`"/Forms"`; a folder's own files are always accumulated, and so are all
files returned under any child folder that passes the substring test. -/
theorem claim_C5_amended :
    (∀ fo, WFFolder fo → containsSub (("/Forms").data) fo.url = false →
       ∀ fi ∈ list_files fo true,
         ∃ d, containsSub (("/Forms").data) d = false ∧
           fi.serverRelativeUrl = d ++ '/' :: fi.name) ∧
    (∀ fo : Folder, ∀ fi ∈ fo.files, fi ∈ list_files fo true) ∧
    (∀ fo : Folder, ∀ f ∈ fo.folders.toList,
       containsSub (("/Forms").data) f.url = false →
         ∀ fi ∈ list_files f true, fi ∈ list_files fo true) := by
  refine ⟨list_files_clean_dir, ?_, ?_⟩
  · intro fo fi hfi
    cases fo with
    | mk u n files folders =>
      simp only [list_files, if_pos rfl]
      exact List.mem_append.2 (Or.inl hfi)
  · intro fo f hf hc fi hfi
    cases fo with
    | mk u n files folders =>
      simp only [list_files, if_pos rfl]
      exact List.mem_append.2 (Or.inr ((mem_list_files_rec fi folders).2 ⟨f, hf, hc, hfi⟩))

/-- C5 witness: in the well-formed single-folder tree at `/lib`, the root's
direct file is returned by recursive enumeration. -/
theorem claim_C5_witness : wfFileW ∈ list_files wfRootW true :=
  claim_C5_amended.2.1 wfRootW wfFileW (by decide)

/-! Claim C6: the indexer's yield order and enrichment point. -/

/-- C6: given that the `process_permissions` property evaluates to a
Boolean `pp` (with a truthy tenant and a `None` credential it instead
raises `AttributeError`, aborting the run before anything is yielded),
`SharepointIndexer.run` yields, in order, all file records (none when
`omit_files` is set) followed by all site-page records with `site_url`
attached (none when `omit_pages` is set); when `pp` is true, the emitted
file records are the enrichment of the complete materialized batch `fds`,
computed before the first record is yielded (the output's file segment is
a function of the whole batch). -/
theorem claim_C6 (cfg0 : SharepointIndexerConfig) (cc : SharepointConnectionConfig)
    (client : SPClient) (driveItems : List DriveItem)
    (pdt : Chars → Chars) (now : Chars) (quoteUrl : Chars → Chars)
    (fds pds : List FileData) (pp : Bool)
    (hpp : process_permissions cc = Except.ok pp)
    (hf : (list_files (get_root cfg0 client).1 (get_root cfg0 client).2.recursive).mapM
        (file_to_file_data pdt now quoteUrl client.base_url
          ((get_root cfg0 client).2.path.getD [])) = Except.ok fds)
    (hp : client.pages.mapM
        (page_to_file_data pdt now ((get_root cfg0 client).2.path.getD [])) =
      Except.ok pds) :
    indexer_run cfg0 cc client driveItems pdt now quoteUrl =
      Except.ok
        ((if (get_root cfg0 client).2.omit_files then []
          else if pp then enrich_permissions_on_files driveItems fds
          else fds) ++
         (if (get_root cfg0 client).2.omit_pages then []
          else pds.map (attach_site_url client.base_url))) := by
  have hf' : List.mapM.loop
      (file_to_file_data pdt now quoteUrl client.base_url
        ((get_root cfg0 client).2.path.getD []))
      (list_files (get_root cfg0 client).1 (get_root cfg0 client).2.recursive) [] =
      Except.ok fds := hf
  have hp' : List.mapM.loop
      (page_to_file_data pdt now ((get_root cfg0 client).2.path.getD []))
      client.pages [] = Except.ok pds := hp
  by_cases h1 : (get_root cfg0 client).2.omit_files <;>
    by_cases h2 : (get_root cfg0 client).2.omit_pages <;>
      simp [indexer_run, h1, h2, hpp, hf, hp, hf', hp', Bind.bind, Except.bind,
        Pure.pure, Except.pure]

/-- C6 witness: with path `docs`, nothing omitted, no permissions config
(the property evaluates to false), one file and no pages, the run yields
exactly the file's record. -/
theorem claim_C6_witness :
    indexer_run cfgW ccW clientW [] (fun s => s) [] (fun s => s) =
      Except.ok [fdFileW] := by
  have h := claim_C6 cfgW ccW clientW [] (fun s => s) [] (fun s => s) [fdFileW] [] false
    (by rfl) (by rfl) (by rfl)
  rw [h]
  rfl
